import Mathlib

/-!
Verification of the module resolution and acquisition engine of `dist.py`
(`download_module_packages`, `parse_version`, `package` and their helpers),
as a shallow embedding: JSON dictionaries become structures with `Option`
fields for possibly-absent keys, network and file-system accesses become
explicit environment functions and effect traces, and the per-module loop
becomes structural recursion over the index list.
-/

namespace Dist

/-- `{major, minor, patch}` dictionaries produced by `parse_version` and
carried in release `*_api_version` fields. -/
structure ApiVersion where
  major : Int
  minor : Int
  patch : Int
deriving Repr, DecidableEq

/-- `module['type'].lower()` — used only as the key selecting which
`*_api_version` field and which current API version apply. -/
inductive ModuleType where
  | plugin
  | subsystem
deriving Repr, DecidableEq

/-- A release object from a module's release index
(`module_index['releases']` entries): version string, archive url, and the
optional `plugin_api_version` / `subsystem_api_version` keys. -/
structure Release where
  version : String
  url : String
  plugin_api_version : Option ApiVersion
  subsystem_api_version : Option ApiVersion
deriving Repr, DecidableEq

/-- `release[f"{module_type}_api_version"]`, `none` when the key is absent. -/
def Release.apiVersionFor (r : Release) : ModuleType → Option ApiVersion
  | .plugin => r.plugin_api_version
  | .subsystem => r.subsystem_api_version

/-- A module descriptor from the top-level index. -/
structure ModuleDescriptor where
  name : String
  type : ModuleType
  url : String
  production_version : Option String
deriving Repr, DecidableEq

/-- `cur_api_ver = {"plugin": plugin_api_version, "subsystem": subsys_api_version}`. -/
structure CurrentApiVersions where
  plugin : ApiVersion
  subsystem : ApiVersion
deriving Repr, DecidableEq

/-- `cur_api_ver[module_type]`. -/
def CurrentApiVersions.forType (c : CurrentApiVersions) : ModuleType → ApiVersion
  | .plugin => c.plugin
  | .subsystem => c.subsystem

/-- The compatibility test of the latest-release scan (dist.py line 240):
`f"{module_type}_api_version" not in release or
release[f'{module_type}_api_version']['major'] == cur_api_ver[module_type]['major']`. -/
def releaseCompatible (t : ModuleType) (cur : ApiVersion) (r : Release) : Bool :=
  match r.apiVersionFor t with
  | none => true
  | some v => v.major == cur.major

/-- The rejection test applied to a found production release (dist.py
line 234): `f"{module_type}_api_version" not in suitable_release or
suitable_release[f"{module_type}_api_version"]["major"] != cur_api_ver[module_type]["major"]`.
Note absence of the key makes this `true` (rejected). -/
def productionIncompatible (t : ModuleType) (cur : ApiVersion) (r : Release) : Bool :=
  match r.apiVersionFor t with
  | none => true
  | some v => v.major != cur.major

/-- Warnings emitted with `logger.warning` inside the per-module loop. -/
inductive ResolveWarning where
  | incompatibleProduction (moduleName productionVersion : String)
deriving Repr, DecidableEq

/-- The release-selection logic of dist.py lines 225–242: if a production
version is pinned, scan for the first exact version match and keep it only
when `productionIncompatible` is false (warning otherwise); if nothing was
kept, scan for the first `releaseCompatible` release. Returns the chosen
release (or `none`) plus any warning emitted. -/
def resolveStep (m : ModuleDescriptor) (releases : List Release)
    (cur : ApiVersion) : Option Release × List ResolveWarning :=
  match m.production_version with
  | some pv =>
    match releases.find? (fun r => r.version == pv) with
    | some r =>
      if productionIncompatible m.type cur r then
        (releases.find? (releaseCompatible m.type cur),
         [.incompatibleProduction m.name pv])
      else
        (some r, [])
    | none => (releases.find? (releaseCompatible m.type cur), [])
  | none => (releases.find? (releaseCompatible m.type cur), [])

/-- The resolver's result: the `suitable_release` value at dist.py line 243. -/
def resolveRelease (m : ModuleDescriptor) (releases : List Release)
    (cur : ApiVersion) : Option Release :=
  (resolveStep m releases cur).1

/-- A distribution config object from the `bundle.json` manifest. Keys that
the code probes with `in` before reading are `Option` fields. -/
structure DistConfig where
  key : String
  bundled_modules : Option (List String)
  includes : Option (List String)
  module_index_url : String
  engine_index_url : String
  local_modules_folder : Option String
deriving Repr, DecidableEq

/-- `conf["bundled_modules"] if "bundled_modules" in conf else []`. -/
def ownBundled (c : DistConfig) : List String :=
  c.bundled_modules.getD []

/-- The effective bundled-module collection built at dist.py lines 198–205:
start from the config's own `bundled_modules`, then for each key in its
`includes` add the `bundled_modules` of every config in `all` with that key. -/
def effectiveBundledModules (distconf : DistConfig) (all : List DistConfig) :
    List String :=
  ownBundled distconf ++
    (distconf.includes.getD []).flatMap (fun inc =>
      all.flatMap (fun oc => if oc.key == inc then ownBundled oc else []))

/-- Modelled from the spec: "Effective bundled-module set for a distribution
equals its own `bundled_modules` unioned with the `bundled_modules` of every
distribution listed in its `includes`, with no further transitive expansion."
Stated as a membership predicate over the one-level union. -/
def specEffectiveBundled (distconf : DistConfig) (all : List DistConfig)
    (x : String) : Prop :=
  x ∈ ownBundled distconf ∨
    ∃ oc ∈ all, oc.key ∈ distconf.includes.getD [] ∧ x ∈ ownBundled oc

/-- `os.path.basename` on the forward-slash urls/paths used here: the part
after the last `/`. -/
def basename (s : String) : String :=
  String.mk ((s.data.splitOn '/').getLastD s.data)

/-- `{"name": name, "version": suitable_release['version']}` — one entry of
`included_modules`, later appended to the profile. -/
structure ResolvedModule where
  name : String
  version : String
deriving Repr, DecidableEq

/-- Observable actions of the per-module loop, tagged with the name of the
module whose iteration performs them (the code's log lines and extraction
paths name the module). -/
inductive Effect where
  | warnIncompatibleProduction (moduleName productionVersion : String)
  | warnNoCompatible (moduleName : String)
  | extractLocal (moduleName localPath target : String)
  | download (moduleName url : String)
  | extractDownloaded (moduleName target : String)
deriving Repr, DecidableEq

/-- The module a given effect belongs to. -/
def Effect.moduleName : Effect → String
  | .warnIncompatibleProduction n _ => n
  | .warnNoCompatible n => n
  | .extractLocal n _ _ => n
  | .download n _ => n
  | .extractDownloaded n _ => n

/-- Whether the effect is a `logger.warning` (as opposed to an acquisition
action on the file system or network). -/
def Effect.isWarning : Effect → Bool
  | .warnIncompatibleProduction _ _ => true
  | .warnNoCompatible _ => true
  | _ => false

/-- The extraction destination of the effect, when it is an extraction. -/
def Effect.extractTarget : Effect → Option String
  | .extractLocal _ _ t => some t
  | .extractDownloaded _ t => some t
  | _ => none

/-- The ambient collaborators of `download_module_packages`: the per-module
release index fetch (`requests.get(module['url']).json()['releases']`), the
optional `local_modules_folder` of the config, and `os.path.exists` over
that folder's files. -/
structure DownloadEnv where
  fetchReleases : String → List Release
  localFolder : Option String
  localExists : String → Bool

/-- `ResolveWarning` re-expressed as loop effects for module `m`. -/
def warningEffects (warns : List ResolveWarning) : List Effect :=
  warns.map (fun w =>
    match w with
    | .incompatibleProduction n pv => .warnIncompatibleProduction n pv)

/-- The acquisition of a resolved release, dist.py lines 247–262: if the
config has a `local_modules_folder` containing a file with the archive's base
name, extract from it (and skip the download); otherwise download the archive
and extract the downloaded bytes. Both paths extract to
`target_dir/<name>/<version>`. -/
def acquireEffects (env : DownloadEnv) (targetDir name : String)
    (r : Release) : List Effect :=
  let zipFileName := basename r.url
  let target := targetDir ++ "/" ++ name ++ "/" ++ r.version
  match env.localFolder with
  | some folder =>
    if env.localExists (folder ++ "/" ++ zipFileName) then
      [.extractLocal name (folder ++ "/" ++ zipFileName) target]
    else
      [.download name r.url, .extractDownloaded name target]
  | none => [.download name r.url, .extractDownloaded name target]

/-- One iteration of the loop at dist.py lines 217–262 for module `m`:
skip silently when the name is not bundled; otherwise resolve against the
fetched release list, and either warn-and-skip (no compatible release) or
record the resolved entry and acquire it. -/
def processModule (env : DownloadEnv) (cur : CurrentApiVersions)
    (targetDir : String) (bundled : List String) (m : ModuleDescriptor) :
    Option ResolvedModule × List Effect :=
  if bundled.contains m.name then
    let releases := env.fetchReleases m.url
    let (chosen, warns) := resolveStep m releases (cur.forType m.type)
    match chosen with
    | none => (none, warningEffects warns ++ [.warnNoCompatible m.name])
    | some r =>
      (some { name := m.name, version := r.version },
       warningEffects warns ++ acquireEffects env targetDir m.name r)
  else
    (none, [])

/-- The whole loop over the index: the `included_modules` list accumulated in
order, and the concatenated effect trace. -/
def runModules (env : DownloadEnv) (cur : CurrentApiVersions)
    (targetDir : String) (bundled : List String) :
    List ModuleDescriptor → List ResolvedModule × List Effect
  | [] => ([], [])
  | m :: rest =>
    let step := processModule env cur targetDir bundled m
    let tail := runModules env cur targetDir bundled rest
    (step.1.toList ++ tail.1, step.2 ++ tail.2)

/-- The persisted profile JSON object: the possibly-absent `loaded_modules`
key and the remaining top-level keys, preserved verbatim. -/
structure Profile where
  loaded_modules : Option (List ResolvedModule)
  extra : List (String × String)
deriving Repr, DecidableEq

/-- The `profile = {}` starting point when the file does not exist. -/
def emptyProfile : Profile := { loaded_modules := none, extra := [] }

/-- dist.py lines 263–272: read the profile if the file exists (else start
from `{}`), ensure `loaded_modules` is present, and extend it with the run's
resolved entries. `existing = none` models a missing file. -/
def appendToProfile (existing : Option Profile)
    (included : List ResolvedModule) : Profile :=
  let profile := existing.getD emptyProfile
  let loaded := profile.loaded_modules.getD []
  { profile with loaded_modules := some (loaded ++ included) }

/-- The `indent` argument of the `json.dump` writing the profile back. -/
def profileWriteIndent : Nat := 2

/-- Whitespace stripping as Python's `int(...)` performs on its argument. -/
def trimChars (cs : List Char) : List Char :=
  ((cs.dropWhile Char.isWhitespace).reverse.dropWhile Char.isWhitespace).reverse

/-- The value of a nonempty all-digit character sequence, `none` as soon as a
non-digit appears. -/
def digitsVal : List Char → Nat → Option Nat
  | [], acc => some acc
  | c :: cs, acc =>
    if c.isDigit then digitsVal cs (acc * 10 + (c.toNat - '0'.toNat))
    else none

/-- An optionally signed nonempty digit string, after stripping. -/
def parseSignedChars : List Char → Option Int
  | '-' :: rest =>
    if rest.isEmpty then none
    else (digitsVal rest 0).map (fun n => -(n : Int))
  | '+' :: rest =>
    if rest.isEmpty then none
    else (digitsVal rest 0).map (fun n => (n : Int))
  | rest =>
    if rest.isEmpty then none
    else (digitsVal rest 0).map (fun n => (n : Int))

/-- Python's `int(...)` applied to a field: strip surrounding whitespace,
then parse an optionally signed decimal integer; `ValueError` (here `none`)
on anything else. -/
def parseIntToken (s : String) : Option Int :=
  parseSignedChars (trimChars s.data)

/-- The last space-separated field of a line, `line.split(" ")[-1]`. -/
def lastField (line : String) : String :=
  String.mk ((line.data.splitOn ' ').getLastD [])

/-- Python's `line.startswith(p)`: `p`'s characters are a prefix of
`line`'s. -/
def startsWithStr (line p : String) : Bool :=
  p.data.isPrefixOf line.data

/-- How `parse_version` can fail: `exit(1)` after the loop when one of the
three components never appeared, or a `ValueError` from `int(...)` on a
matching line whose last field is not an integer. -/
inductive VersionParseFailure where
  | missingComponent
  | intValueError
deriving Repr, DecidableEq

/-- The line marker `#define {version_define_prefix}_VERSION_{field}` that a
component line must start with. -/
def defineLineMarker (versionDefine field : String) : String :=
  "#define " ++ versionDefine ++ "_VERSION_" ++ field

/-- Which branch of the `if`/`elif` chain at dist.py lines 104–109 a line
takes: MAJOR is tested first, then MINOR, then PATCH, else the line is
ignored. -/
inductive LineClass where
  | major
  | minor
  | patch
  | other
deriving Repr, DecidableEq

/-- The `if line.startswith(...)` / `elif ...` classification of one line. -/
def classifyLine (versionDefine line : String) : LineClass :=
  if startsWithStr line (defineLineMarker versionDefine "MAJOR") then .major
  else if startsWithStr line (defineLineMarker versionDefine "MINOR") then .minor
  else if startsWithStr line (defineLineMarker versionDefine "PATCH") then .patch
  else .other

/-- The line loop of `parse_version` (dist.py lines 102–109), carrying the
three accumulators that start as `None`: each matching line overwrites its
component with the parsed last field, a failing `int(...)` aborts. -/
def parseVersionLoop (versionDefine : String) :
    List String → Option Int → Option Int → Option Int →
    Except VersionParseFailure ApiVersion
  | [], major, minor, patch =>
    match major, minor, patch with
    | some ma, some mi, some pa => .ok { major := ma, minor := mi, patch := pa }
    | _, _, _ => .error .missingComponent
  | line :: rest, major, minor, patch =>
    match classifyLine versionDefine line with
    | .major =>
      match parseIntToken (lastField line) with
      | some v => parseVersionLoop versionDefine rest (some v) minor patch
      | none => .error .intValueError
    | .minor =>
      match parseIntToken (lastField line) with
      | some v => parseVersionLoop versionDefine rest major (some v) patch
      | none => .error .intValueError
    | .patch =>
      match parseIntToken (lastField line) with
      | some v => parseVersionLoop versionDefine rest major minor (some v)
      | none => .error .intValueError
    | .other => parseVersionLoop versionDefine rest major minor patch

/-- `parse_version` (dist.py lines 97–113) on the file's list of lines:
scan every line, then fail if any of MAJOR/MINOR/PATCH was never set. -/
def parse_version (lines : List String) (versionDefine : String) :
    Except VersionParseFailure ApiVersion :=
  parseVersionLoop versionDefine lines none none none

/-- `ARTIFACTS_FOLDER` of dist.py. -/
def ARTIFACTS_FOLDER : String := "./Artifacts"

/-- `STAGING_FOLDER` of dist.py. -/
def STAGING_FOLDER : String := ARTIFACTS_FOLDER ++ "/__staging__"

/-- File-system actions of the opening of `package`, in execution order. -/
inductive FsEffect where
  | rmtree (path : String)
  | makedirs (path : String)
  | readFile (path : String)
deriving Repr, DecidableEq

/-- Whether the file-system action mutates the file system (`rmtree` and
`makedirs` do, reading `bundle.json` does not). -/
def FsEffect.isMutation : FsEffect → Bool
  | .rmtree _ => true
  | .makedirs _ => true
  | .readFile _ => false

/-- The opening of `package` (dist.py lines 298–311), up to and including the
distribution-key lookup: remove the artifacts folder, create the staging
folder, read `bundle.json`, then search the manifest for the key and
`exit(1)` when it is absent. Returns the file-system actions performed
before the lookup's outcome, paired with that outcome. -/
def packagePrelude (dists : List DistConfig) (distKey : String) :
    List FsEffect × Except Unit DistConfig :=
  ([.rmtree ARTIFACTS_FOLDER, .makedirs STAGING_FOLDER, .readFile "./bundle.json"],
   match dists.find? (fun d => d.key == distKey) with
   | some d => .ok d
   | none => .error ())

/-! ## Helper lemmas -/

lemma productionIncompatible_eq_false {t : ModuleType} {cur : ApiVersion}
    {r : Release} {v : ApiVersion} (hv : r.apiVersionFor t = some v)
    (hmaj : v.major = cur.major) : productionIncompatible t cur r = false := by
  simp [productionIncompatible, hv, hmaj]

lemma productionIncompatible_eq_true_of_ne {t : ModuleType} {cur : ApiVersion}
    {r : Release} {v : ApiVersion} (hv : r.apiVersionFor t = some v)
    (hmaj : v.major ≠ cur.major) : productionIncompatible t cur r = true := by
  simp [productionIncompatible, hv, hmaj]

lemma productionIncompatible_eq_true_of_none {t : ModuleType} {cur : ApiVersion}
    {r : Release} (hv : r.apiVersionFor t = none) :
    productionIncompatible t cur r = true := by
  simp [productionIncompatible, hv]

lemma releaseCompatible_of_none {t : ModuleType} {cur : ApiVersion}
    {r : Release} (hv : r.apiVersionFor t = none) :
    releaseCompatible t cur r = true := by
  simp [releaseCompatible, hv]

lemma resolveStep_snd_mem (m : ModuleDescriptor) (releases : List Release)
    (cur : ApiVersion) :
    ∀ w ∈ (resolveStep m releases cur).2,
      ∃ pv, w = ResolveWarning.incompatibleProduction m.name pv := by
  intro w hw
  rcases hp : m.production_version with _ | pv
  · simp [resolveStep, hp] at hw
  · rcases hf : releases.find? (fun r => r.version == pv) with _ | r
    · simp [resolveStep, hp, hf] at hw
    · by_cases hc : productionIncompatible m.type cur r = true
      · simp [resolveStep, hp, hf, hc] at hw
        exact ⟨pv, hw⟩
      · simp [resolveStep, hp, hf, hc] at hw

lemma processModule_eq_of_contains (env : DownloadEnv)
    (cur : CurrentApiVersions) (targetDir : String) (bundled : List String)
    (m : ModuleDescriptor) (hb : bundled.contains m.name = true) :
    processModule env cur targetDir bundled m =
      match resolveStep m (env.fetchReleases m.url) (cur.forType m.type) with
      | (none, warns) =>
        (none, warningEffects warns ++ [.warnNoCompatible m.name])
      | (some r, warns) =>
        (some { name := m.name, version := r.version },
         warningEffects warns ++ acquireEffects env targetDir m.name r) := by
  have hb' : m.name ∈ bundled := by simpa using hb
  rcases hs : resolveStep m (env.fetchReleases m.url) (cur.forType m.type)
    with ⟨o, w⟩
  rcases o with _ | r <;> simp [processModule, hb', hs]

lemma processModule_eq_of_not_contains (env : DownloadEnv)
    (cur : CurrentApiVersions) (targetDir : String) (bundled : List String)
    (m : ModuleDescriptor) (hb : ¬ bundled.contains m.name = true) :
    processModule env cur targetDir bundled m = (none, []) := by
  have hb' : m.name ∉ bundled := by simpa using hb
  simp [processModule, hb']

lemma acquireEffects_moduleName (env : DownloadEnv) (targetDir name : String)
    (r : Release) :
    ∀ e ∈ acquireEffects env targetDir name r, e.moduleName = name := by
  intro e he
  simp only [acquireEffects] at he
  rcases hf : env.localFolder with _ | folder <;> rw [hf] at he
  · simp at he
    rcases he with he | he <;> subst he <;> rfl
  · by_cases hx : env.localExists (folder ++ "/" ++ basename r.url) = true
    · simp [hx] at he
      subst he; rfl
    · simp [hx] at he
      rcases he with he | he <;> subst he <;> rfl

lemma warningEffects_moduleName (m : ModuleDescriptor)
    (releases : List Release) (cur : ApiVersion) :
    ∀ e ∈ warningEffects (resolveStep m releases cur).2,
      e.moduleName = m.name := by
  intro e he
  obtain ⟨wr, hwr, rfl⟩ := List.mem_map.1 he
  obtain ⟨pv, rfl⟩ := resolveStep_snd_mem m releases cur wr hwr
  rfl

lemma processModule_fst_name (env : DownloadEnv) (cur : CurrentApiVersions)
    (targetDir : String) (bundled : List String) (m : ModuleDescriptor) :
    ∀ e, (processModule env cur targetDir bundled m).1 = some e →
      e.name = m.name := by
  intro e he
  by_cases hb : bundled.contains m.name = true
  · rcases hs : resolveStep m (env.fetchReleases m.url) (cur.forType m.type)
      with ⟨o, w⟩
    rcases o with _ | r
    · rw [processModule_eq_of_contains env cur targetDir bundled m hb, hs] at he
      cases he
    · rw [processModule_eq_of_contains env cur targetDir bundled m hb, hs] at he
      have he' : ({ name := m.name, version := r.version } : ResolvedModule)
          = e := by
        exact Option.some.inj he
      rw [← he']
  · rw [processModule_eq_of_not_contains env cur targetDir bundled m hb] at he
    cases he

lemma processModule_snd_name (env : DownloadEnv) (cur : CurrentApiVersions)
    (targetDir : String) (bundled : List String) (m : ModuleDescriptor) :
    ∀ e ∈ (processModule env cur targetDir bundled m).2,
      e.moduleName = m.name := by
  intro e he
  by_cases hb : bundled.contains m.name = true
  · rcases hs : resolveStep m (env.fetchReleases m.url) (cur.forType m.type)
      with ⟨o, w⟩
    have hw : ∀ x ∈ warningEffects w, Effect.moduleName x = m.name := by
      intro x hx
      exact warningEffects_moduleName m (env.fetchReleases m.url)
        (cur.forType m.type) x (by rw [hs]; exact hx)
    rcases o with _ | r
    · rw [processModule_eq_of_contains env cur targetDir bundled m hb, hs] at he
      rcases List.mem_append.1 he with h1 | h1
      · exact hw e h1
      · rw [List.mem_singleton.1 h1]; rfl
    · rw [processModule_eq_of_contains env cur targetDir bundled m hb, hs] at he
      rcases List.mem_append.1 he with h1 | h1
      · exact hw e h1
      · exact acquireEffects_moduleName env targetDir m.name r e h1
  · rw [processModule_eq_of_not_contains env cur targetDir bundled m hb] at he
    cases he

lemma runModules_fst_length_le (env : DownloadEnv) (cur : CurrentApiVersions)
    (targetDir : String) (bundled : List String) :
    ∀ index : List ModuleDescriptor,
      ((runModules env cur targetDir bundled index).1).length ≤ index.length
  | [] => by simp [runModules]
  | m :: rest => by
    have h1 : (processModule env cur targetDir bundled m).1.toList.length ≤ 1 := by
      cases (processModule env cur targetDir bundled m).1 <;> simp
    have h2 := runModules_fst_length_le env cur targetDir bundled rest
    simp only [runModules, List.length_append, List.length_cons]
    omega

lemma classifyLine_major_startsWith {p l : String}
    (h : classifyLine p l = .major) :
    startsWithStr l (defineLineMarker p "MAJOR") = true := by
  unfold classifyLine at h
  repeat' split at h
  all_goals simp_all

lemma classifyLine_minor_startsWith {p l : String}
    (h : classifyLine p l = .minor) :
    startsWithStr l (defineLineMarker p "MINOR") = true := by
  unfold classifyLine at h
  repeat' split at h
  all_goals simp_all

lemma classifyLine_patch_startsWith {p l : String}
    (h : classifyLine p l = .patch) :
    startsWithStr l (defineLineMarker p "PATCH") = true := by
  unfold classifyLine at h
  repeat' split at h
  all_goals simp_all

lemma parseVersionLoop_ok_sources (p : String) :
    ∀ (lines : List String) (maj mi pa : Option Int) (v : ApiVersion),
      parseVersionLoop p lines maj mi pa = .ok v →
      (maj = some v.major ∨ ∃ l ∈ lines, classifyLine p l = .major ∧
          parseIntToken (lastField l) = some v.major) ∧
      (mi = some v.minor ∨ ∃ l ∈ lines, classifyLine p l = .minor ∧
          parseIntToken (lastField l) = some v.minor) ∧
      (pa = some v.patch ∨ ∃ l ∈ lines, classifyLine p l = .patch ∧
          parseIntToken (lastField l) = some v.patch) := by
  intro lines
  induction lines with
  | nil =>
    intro maj mi pa v h
    rcases maj with _ | ma <;> rcases mi with _ | m2 <;> rcases pa with _ | p2 <;>
      simp [parseVersionLoop] at h
    subst h
    exact ⟨Or.inl rfl, Or.inl rfl, Or.inl rfl⟩
  | cons line rest ih =>
    intro maj mi pa v h
    cases hc : classifyLine p line
    case major =>
      rcases hpi : parseIntToken (lastField line) with _ | nval
      · simp [parseVersionLoop, hc, hpi] at h
      · have h' : parseVersionLoop p rest (some nval) mi pa = .ok v := by
          rw [← h]
          simp [parseVersionLoop, hc, hpi]
        obtain ⟨h1, h2, h3⟩ := ih (some nval) mi pa v h'
        refine ⟨?_, ?_, ?_⟩
        · rcases h1 with h1 | ⟨l, hl, hcl, hpl⟩
          · exact Or.inr ⟨line, List.mem_cons_self _ _, hc, hpi.trans h1⟩
          · exact Or.inr ⟨l, List.mem_cons_of_mem _ hl, hcl, hpl⟩
        · rcases h2 with h2 | ⟨l, hl, hcl, hpl⟩
          · exact Or.inl h2
          · exact Or.inr ⟨l, List.mem_cons_of_mem _ hl, hcl, hpl⟩
        · rcases h3 with h3 | ⟨l, hl, hcl, hpl⟩
          · exact Or.inl h3
          · exact Or.inr ⟨l, List.mem_cons_of_mem _ hl, hcl, hpl⟩
    case minor =>
      rcases hpi : parseIntToken (lastField line) with _ | nval
      · simp [parseVersionLoop, hc, hpi] at h
      · have h' : parseVersionLoop p rest maj (some nval) pa = .ok v := by
          rw [← h]
          simp [parseVersionLoop, hc, hpi]
        obtain ⟨h1, h2, h3⟩ := ih maj (some nval) pa v h'
        refine ⟨?_, ?_, ?_⟩
        · rcases h1 with h1 | ⟨l, hl, hcl, hpl⟩
          · exact Or.inl h1
          · exact Or.inr ⟨l, List.mem_cons_of_mem _ hl, hcl, hpl⟩
        · rcases h2 with h2 | ⟨l, hl, hcl, hpl⟩
          · exact Or.inr ⟨line, List.mem_cons_self _ _, hc, hpi.trans h2⟩
          · exact Or.inr ⟨l, List.mem_cons_of_mem _ hl, hcl, hpl⟩
        · rcases h3 with h3 | ⟨l, hl, hcl, hpl⟩
          · exact Or.inl h3
          · exact Or.inr ⟨l, List.mem_cons_of_mem _ hl, hcl, hpl⟩
    case patch =>
      rcases hpi : parseIntToken (lastField line) with _ | nval
      · simp [parseVersionLoop, hc, hpi] at h
      · have h' : parseVersionLoop p rest maj mi (some nval) = .ok v := by
          rw [← h]
          simp [parseVersionLoop, hc, hpi]
        obtain ⟨h1, h2, h3⟩ := ih maj mi (some nval) v h'
        refine ⟨?_, ?_, ?_⟩
        · rcases h1 with h1 | ⟨l, hl, hcl, hpl⟩
          · exact Or.inl h1
          · exact Or.inr ⟨l, List.mem_cons_of_mem _ hl, hcl, hpl⟩
        · rcases h2 with h2 | ⟨l, hl, hcl, hpl⟩
          · exact Or.inl h2
          · exact Or.inr ⟨l, List.mem_cons_of_mem _ hl, hcl, hpl⟩
        · rcases h3 with h3 | ⟨l, hl, hcl, hpl⟩
          · exact Or.inr ⟨line, List.mem_cons_self _ _, hc, hpi.trans h3⟩
          · exact Or.inr ⟨l, List.mem_cons_of_mem _ hl, hcl, hpl⟩
    case other =>
      have h' : parseVersionLoop p rest maj mi pa = .ok v := by
        rw [← h]
        simp [parseVersionLoop, hc]
      obtain ⟨h1, h2, h3⟩ := ih maj mi pa v h'
      refine ⟨?_, ?_, ?_⟩
      · rcases h1 with h1 | ⟨l, hl, hcl, hpl⟩
        · exact Or.inl h1
        · exact Or.inr ⟨l, List.mem_cons_of_mem _ hl, hcl, hpl⟩
      · rcases h2 with h2 | ⟨l, hl, hcl, hpl⟩
        · exact Or.inl h2
        · exact Or.inr ⟨l, List.mem_cons_of_mem _ hl, hcl, hpl⟩
      · rcases h3 with h3 | ⟨l, hl, hcl, hpl⟩
        · exact Or.inl h3
        · exact Or.inr ⟨l, List.mem_cons_of_mem _ hl, hcl, hpl⟩

lemma parseVersionLoop_ok_of_present (p : String) :
    ∀ (lines : List String) (maj mi pa : Option Int),
      (maj.isSome = true ∨ ∃ l ∈ lines, classifyLine p l = .major) →
      (mi.isSome = true ∨ ∃ l ∈ lines, classifyLine p l = .minor) →
      (pa.isSome = true ∨ ∃ l ∈ lines, classifyLine p l = .patch) →
      (∀ l ∈ lines, classifyLine p l ≠ .other →
        (parseIntToken (lastField l)).isSome = true) →
      ∃ v, parseVersionLoop p lines maj mi pa = .ok v := by
  intro lines
  induction lines with
  | nil =>
    intro maj mi pa h1 h2 h3 _
    simp only [List.not_mem_nil, false_and, exists_false, or_false,
      exists_and_left] at h1 h2 h3
    obtain ⟨ma, hma⟩ := Option.isSome_iff_exists.1 h1
    obtain ⟨m2, hm2⟩ := Option.isSome_iff_exists.1 h2
    obtain ⟨p2, hp2⟩ := Option.isSome_iff_exists.1 h3
    exact ⟨⟨ma, m2, p2⟩, by rw [hma, hm2, hp2]; rfl⟩
  | cons line rest ih =>
    intro maj mi pa h1 h2 h3 h4
    have hlift : ∀ (c : LineClass), classifyLine p line = c →
        ∀ (q : Option Int) (cls : LineClass), cls ≠ c →
        (q.isSome = true ∨ ∃ l ∈ line :: rest, classifyLine p l = cls) →
        (q.isSome = true ∨ ∃ l ∈ rest, classifyLine p l = cls) := by
      intro c hcc q cls hne hq
      rcases hq with hq | ⟨l, hl, hcl⟩
      · exact Or.inl hq
      · rcases List.mem_cons.1 hl with rfl | hl'
        · rw [hcc] at hcl
          exact absurd hcl.symm (by simpa using hne)
        · exact Or.inr ⟨l, hl', hcl⟩
    have h4' : ∀ l ∈ rest, classifyLine p l ≠ .other →
        (parseIntToken (lastField l)).isSome = true := by
      intro l hl
      exact h4 l (List.mem_cons_of_mem _ hl)
    cases hc : classifyLine p line
    case major =>
      obtain ⟨nval, hpi⟩ := Option.isSome_iff_exists.1
        (h4 line (List.mem_cons_self _ _) (by rw [hc]; simp))
      obtain ⟨v, hv⟩ := ih (some nval) mi pa (Or.inl rfl)
        (hlift .major hc mi .minor (by simp) h2)
        (hlift .major hc pa .patch (by simp) h3) h4'
      exact ⟨v, by rw [← hv]; simp [parseVersionLoop, hc, hpi]⟩
    case minor =>
      obtain ⟨nval, hpi⟩ := Option.isSome_iff_exists.1
        (h4 line (List.mem_cons_self _ _) (by rw [hc]; simp))
      obtain ⟨v, hv⟩ := ih maj (some nval) pa
        (hlift .minor hc maj .major (by simp) h1) (Or.inl rfl)
        (hlift .minor hc pa .patch (by simp) h3) h4'
      exact ⟨v, by rw [← hv]; simp [parseVersionLoop, hc, hpi]⟩
    case patch =>
      obtain ⟨nval, hpi⟩ := Option.isSome_iff_exists.1
        (h4 line (List.mem_cons_self _ _) (by rw [hc]; simp))
      obtain ⟨v, hv⟩ := ih maj mi (some nval)
        (hlift .patch hc maj .major (by simp) h1)
        (hlift .patch hc mi .minor (by simp) h2) (Or.inl rfl) h4'
      exact ⟨v, by rw [← hv]; simp [parseVersionLoop, hc, hpi]⟩
    case other =>
      obtain ⟨v, hv⟩ := ih maj mi pa
        (hlift .other hc maj .major (by simp) h1)
        (hlift .other hc mi .minor (by simp) h2)
        (hlift .other hc pa .patch (by simp) h3) h4'
      exact ⟨v, by rw [← hv]; simp [parseVersionLoop, hc]⟩

/-! ## Claim theorems -/

/-- Claim C1, counterexample. The pinned release `"1.0"` of module `m1` has
no `plugin_api_version`; the claim says the resolver must return it, but the
resolver returns the release `"2.0"` found by the fallback scan instead. -/
theorem C1_counterexample :
    resolveRelease ⟨"m1", .plugin, "url", some "1.0"⟩
        [⟨"2.0", "u0", some ⟨1, 0, 0⟩, none⟩, ⟨"1.0", "u1", none, none⟩]
        ⟨1, 0, 0⟩
      = some ⟨"2.0", "u0", some ⟨1, 0, 0⟩, none⟩ ∧
    (Release.apiVersionFor ⟨"1.0", "u1", none, none⟩ ModuleType.plugin = none) ∧
    resolveRelease ⟨"m1", .plugin, "url", some "1.0"⟩
        [⟨"2.0", "u0", some ⟨1, 0, 0⟩, none⟩, ⟨"1.0", "u1", none, none⟩]
        ⟨1, 0, 0⟩
      ≠ some ⟨"1.0", "u1", none, none⟩ := by
  refine ⟨rfl, rfl, ?_⟩
  decide

/-- Claim C1, amended: when `production_version` is set and the first release
with exactly that version string declares an `api_version` for the module's
type whose major equals the current API major, the resolver returns that
release, regardless of its position in the list. (The unamended claim also
allowed the declared api\_version to be absent; the code rejects that case.) -/
theorem C1_production_pin (m : ModuleDescriptor) (releases : List Release)
    (cur : ApiVersion) (pv : String) (r : Release) (v : ApiVersion)
    (hpv : m.production_version = some pv)
    (hfind : releases.find? (fun x => x.version == pv) = some r)
    (hv : r.apiVersionFor m.type = some v)
    (hmaj : v.major = cur.major) :
    resolveRelease m releases cur = some r := by
  simp [resolveRelease, resolveStep, hpv, hfind,
    productionIncompatible_eq_false hv hmaj]

/-- Claim C1, witness: the pinned release sits second in the list, behind a
release the fallback scan would pick, and is still returned. -/
theorem C1_production_pin_witness :
    resolveRelease ⟨"m1", .plugin, "url", some "1.0"⟩
        [⟨"2.0", "u0", some ⟨2, 0, 0⟩, none⟩, ⟨"1.0", "u1", some ⟨1, 5, 5⟩, none⟩]
        ⟨1, 0, 0⟩
      = some ⟨"1.0", "u1", some ⟨1, 5, 5⟩, none⟩ :=
  C1_production_pin _ _ _ "1.0" _ ⟨1, 5, 5⟩ rfl (by decide) rfl rfl

/-- Claim C2: when `production_version` is absent, matches no release, or
matches a release whose declared api\_version for the module's type has a
different major, the resolver returns the first release in list order that is
`releaseCompatible` (api\_version absent or equal major), and `none` when no
release is compatible. -/
theorem C2_fallback_scan (m : ModuleDescriptor) (releases : List Release)
    (cur : ApiVersion)
    (h : m.production_version = none ∨
      ∃ pv, m.production_version = some pv ∧
        (releases.find? (fun r => r.version == pv) = none ∨
         ∃ r v, releases.find? (fun r => r.version == pv) = some r ∧
           r.apiVersionFor m.type = some v ∧ v.major ≠ cur.major)) :
    resolveRelease m releases cur
        = releases.find? (releaseCompatible m.type cur) ∧
    ((∀ r ∈ releases, releaseCompatible m.type cur r = false) →
      resolveRelease m releases cur = none) := by
  have hmain : resolveRelease m releases cur
      = releases.find? (releaseCompatible m.type cur) := by
    rcases h with h | ⟨pv, hpv, h⟩
    · simp [resolveRelease, resolveStep, h]
    · rcases h with h | ⟨r, v, hfind, hv, hne⟩
      · simp [resolveRelease, resolveStep, hpv, h]
      · simp [resolveRelease, resolveStep, hpv, hfind,
          productionIncompatible_eq_true_of_ne hv hne]
  refine ⟨hmain, fun hnone => ?_⟩
  rw [hmain, List.find?_eq_none]
  intro r hr
  simp [hnone r hr]

/-- Claim C2, witness: a module with no production version resolves to the
first compatible release (here the second list element, the first being of a
different major). -/
theorem C2_fallback_scan_witness :
    resolveRelease ⟨"m1", .plugin, "url", none⟩
        [⟨"3.0", "u0", some ⟨3, 0, 0⟩, none⟩, ⟨"2.0", "u1", some ⟨1, 1, 0⟩, none⟩]
        ⟨1, 0, 0⟩
      = some ⟨"2.0", "u1", some ⟨1, 1, 0⟩, none⟩ := by
  have h := C2_fallback_scan ⟨"m1", .plugin, "url", none⟩
    [⟨"3.0", "u0", some ⟨3, 0, 0⟩, none⟩, ⟨"2.0", "u1", some ⟨1, 1, 0⟩, none⟩]
    ⟨1, 0, 0⟩ (Or.inl rfl)
  rw [h.1]
  decide

/-- Claim C5, counterexample. A production-pinned release lacking the
`plugin_api_version` key is *not* treated as compatible: the pin check
rejects it with the incompatible-production warning and the scan returns a
different release. -/
theorem C5_counterexample :
    productionIncompatible .plugin ⟨1, 0, 0⟩ ⟨"1.0", "u1", none, none⟩ = true ∧
    resolveStep ⟨"m1", .plugin, "url", some "1.0"⟩
        [⟨"2.0", "u0", some ⟨1, 0, 0⟩, none⟩, ⟨"1.0", "u1", none, none⟩]
        ⟨1, 0, 0⟩
      = (some ⟨"2.0", "u0", some ⟨1, 0, 0⟩, none⟩,
         [.incompatibleProduction "m1" "1.0"]) := by
  exact ⟨rfl, rfl⟩

/-- Claim C5, amended: a release lacking an api\_version for the relevant
module type is treated as compatible during the latest-compatible scan (and
is returned when it heads the list), but when it is the production-pinned
release the pin check treats the absence as incompatible and falls back. -/
theorem C5_absent_api (t : ModuleType) (cur : ApiVersion) (r : Release)
    (hv : r.apiVersionFor t = none) :
    releaseCompatible t cur r = true ∧
    productionIncompatible t cur r = true ∧
    (∀ (name murl : String) (rest : List Release),
      resolveRelease ⟨name, t, murl, none⟩ (r :: rest) cur = some r) := by
  refine ⟨releaseCompatible_of_none hv, productionIncompatible_eq_true_of_none hv,
    fun name murl rest => ?_⟩
  unfold resolveRelease resolveStep
  simp [List.find?_cons, releaseCompatible_of_none hv]

/-- Claim C5, witness: a concrete release with no api version is compatible
in the scan, rejected as a pin, and selected when first in the list. -/
theorem C5_absent_api_witness :
    releaseCompatible .plugin ⟨4, 0, 0⟩ ⟨"1.0", "u", none, none⟩ = true ∧
    productionIncompatible .plugin ⟨4, 0, 0⟩ ⟨"1.0", "u", none, none⟩ = true ∧
    resolveRelease ⟨"m", .plugin, "url", none⟩ [⟨"1.0", "u", none, none⟩]
        ⟨4, 0, 0⟩
      = some ⟨"1.0", "u", none, none⟩ := by
  have h := C5_absent_api .plugin ⟨4, 0, 0⟩ ⟨"1.0", "u", none, none⟩ rfl
  exact ⟨h.1, h.2.1, h.2.2 "m" "url" []⟩

/-- Claim C3, counterexample. With an empty manifest (so the key is
certainly absent), the run does fail, but the removal of the artifacts
folder — a mutating file-system side effect — has already happened before
the key check, contradicting "no side effect on the file system occurs
before the key check succeeds". -/
theorem C3_counterexample :
    (packagePrelude [] "default").2 = .error () ∧
    FsEffect.rmtree ARTIFACTS_FOLDER ∈ (packagePrelude [] "default").1 ∧
    (FsEffect.rmtree ARTIFACTS_FOLDER).isMutation = true := by
  refine ⟨rfl, ?_, rfl⟩
  simp [packagePrelude]

/-- Claim C3, amended: when the requested distribution key is not found in
the manifest the run fails fatally and no packaging work for the
distribution is attempted, but the artifacts-folder removal, the
staging-folder creation and the manifest read have already been performed
before the key check. -/
theorem C3_key_not_found (dists : List DistConfig) (k : String)
    (h : dists.find? (fun d => d.key == k) = none) :
    (packagePrelude dists k).2 = .error () ∧
    (packagePrelude dists k).1 =
      [.rmtree ARTIFACTS_FOLDER, .makedirs STAGING_FOLDER,
       .readFile "./bundle.json"] := by
  simp [packagePrelude, h]

/-- Claim C3, witness: concrete instance of the amended statement on an
empty manifest. -/
theorem C3_key_not_found_witness :
    (packagePrelude [] "nodos").2 = .error () ∧
    (packagePrelude [] "nodos").1 =
      [.rmtree ARTIFACTS_FOLDER, .makedirs STAGING_FOLDER,
       .readFile "./bundle.json"] :=
  C3_key_not_found [] "nodos" rfl

/-- Claim C4: membership in the effective bundled-module list built by the
code coincides with the spec's one-level union — the config's own
`bundled_modules` together with the `bundled_modules` of every distribution
of the manifest whose key appears in the config's `includes`, with no
transitive expansion. -/
theorem C4_effective_bundled (distconf : DistConfig) (all : List DistConfig)
    (x : String) :
    x ∈ effectiveBundledModules distconf all ↔
      specEffectiveBundled distconf all x := by
  unfold effectiveBundledModules specEffectiveBundled
  simp only [List.mem_append, List.mem_flatMap]
  apply or_congr Iff.rfl
  constructor
  · rintro ⟨inc, hinc, oc, hoc, hx⟩
    by_cases h : oc.key == inc
    · rw [if_pos h] at hx
      rw [beq_iff_eq] at h
      exact ⟨oc, hoc, h ▸ hinc, hx⟩
    · rw [if_neg h] at hx
      cases hx
  · rintro ⟨oc, hoc, hkey, hx⟩
    exact ⟨oc.key, hkey, oc, hoc, by simp [hx]⟩

/-- Claim C6: whenever a local modules folder is configured and it contains
a file named like the base name of the release's archive url, acquisition
extracts from that local file and performs no download; and every extraction
the acquisition step performs — local or downloaded — targets
`targetDir/<name>/<version>`. -/
theorem C6_cache_first (env : DownloadEnv) (targetDir name : String)
    (r : Release) :
    (∀ folder, env.localFolder = some folder →
      env.localExists (folder ++ "/" ++ basename r.url) = true →
      acquireEffects env targetDir name r =
        [.extractLocal name (folder ++ "/" ++ basename r.url)
          (targetDir ++ "/" ++ name ++ "/" ++ r.version)] ∧
      ∀ u, Effect.download name u ∉ acquireEffects env targetDir name r) ∧
    (∀ e ∈ acquireEffects env targetDir name r, ∀ t, e.extractTarget = some t →
      t = targetDir ++ "/" ++ name ++ "/" ++ r.version) := by
  constructor
  · intro folder hf hx
    have heq : acquireEffects env targetDir name r =
        [.extractLocal name (folder ++ "/" ++ basename r.url)
          (targetDir ++ "/" ++ name ++ "/" ++ r.version)] := by
      simp [acquireEffects, hf, hx]
    refine ⟨heq, fun u => ?_⟩
    rw [heq]
    simp
  · intro e he t ht
    simp only [acquireEffects] at he
    rcases hf : env.localFolder with _ | folder <;> rw [hf] at he
    · simp at he
      rcases he with he | he <;> subst he
      · cases ht
      · cases ht; rfl
    · by_cases hx : env.localExists (folder ++ "/" ++ basename r.url) = true
      · simp [hx] at he
        subst he; cases ht; rfl
      · simp [hx] at he
        rcases he with he | he <;> subst he
        · cases ht
        · cases ht; rfl

/-- Claim C6, witness: a concrete environment whose local folder holds the
archive file; acquisition is a single local extraction into `T/m/1.0`. -/
theorem C6_cache_first_witness :
    acquireEffects ⟨fun _ => [], some "L", fun p => p == "L/a.zip"⟩ "T" "m"
        ⟨"1.0", "http://h/a.zip", none, none⟩ =
      [.extractLocal "m" "L/a.zip" "T/m/1.0"] := by
  exact ((C6_cache_first ⟨fun _ => [], some "L", fun p => p == "L/a.zip"⟩
    "T" "m" ⟨"1.0", "http://h/a.zip", none, none⟩).1 "L" rfl (by decide)).1

/-- Claim C7: profile appending is not idempotent — appending the same
resolved list twice (starting from a missing file) accumulates two copies of
each entry; appending never replaces or deduplicates the existing entries or
the other profile fields; a missing file starts from the empty object; and
the write-back uses 2-space JSON indentation. -/
theorem C7_profile_append (ms : List ResolvedModule) (p : Profile)
    (h : ms ≠ []) :
    (appendToProfile (some (appendToProfile none ms)) ms).loaded_modules
        = some (ms ++ ms) ∧
    (∀ x, (ms ++ ms).count x = 2 * ms.count x) ∧
    (appendToProfile (some p) ms).loaded_modules
        = some (p.loaded_modules.getD [] ++ ms) ∧
    (appendToProfile (some p) ms).extra = p.extra ∧
    appendToProfile none ms = { loaded_modules := some ms, extra := [] } ∧
    appendToProfile (some (appendToProfile none ms)) ms
        ≠ appendToProfile none ms ∧
    profileWriteIndent = 2 := by
  refine ⟨by simp [appendToProfile, emptyProfile],
    fun x => by rw [List.count_append, two_mul],
    by simp [appendToProfile], rfl,
    by simp [appendToProfile, emptyProfile], ?_, rfl⟩
  intro hcontra
  have hlm := congrArg Profile.loaded_modules hcontra
  simp [appendToProfile, emptyProfile] at hlm
  exact h (by simpa using congrArg List.length hlm)

/-- Claim C7, witness: appending the one-element list twice yields the entry
twice. -/
theorem C7_profile_append_witness :
    (appendToProfile (some (appendToProfile none [⟨"m", "1.0"⟩]))
        [⟨"m", "1.0"⟩]).loaded_modules
      = some [⟨"m", "1.0"⟩, ⟨"m", "1.0"⟩] := by
  exact (C7_profile_append [⟨"m", "1.0"⟩] emptyProfile (by simp)).1

/-- Claim C8: when the resolver returns `none` for a bundled module, that
module contributes no resolved entry, only warning effects (the optional
incompatible-production warning and the no-compatible-release warning, no
acquisition), the remaining modules are still processed exactly as they
would be alone, and every run resolves at most one release per index
entry. -/
theorem C8_no_compatible_skip (env : DownloadEnv) (cur : CurrentApiVersions)
    (targetDir : String) (bundled : List String) (m : ModuleDescriptor)
    (rest : List ModuleDescriptor)
    (hb : bundled.contains m.name = true)
    (hnone : resolveRelease m (env.fetchReleases m.url) (cur.forType m.type)
      = none) :
    (runModules env cur targetDir bundled (m :: rest)).1
        = (runModules env cur targetDir bundled rest).1 ∧
    (runModules env cur targetDir bundled (m :: rest)).2
        = (warningEffects
            (resolveStep m (env.fetchReleases m.url) (cur.forType m.type)).2
           ++ [.warnNoCompatible m.name])
          ++ (runModules env cur targetDir bundled rest).2 ∧
    (∀ e ∈ warningEffects
        (resolveStep m (env.fetchReleases m.url) (cur.forType m.type)).2
        ++ [Effect.warnNoCompatible m.name], e.isWarning = true) ∧
    (∀ index : List ModuleDescriptor,
      ((runModules env cur targetDir bundled index).1).length ≤ index.length) := by
  rcases hs : resolveStep m (env.fetchReleases m.url) (cur.forType m.type)
    with ⟨o, w⟩
  have ho : o = none := by
    unfold resolveRelease at hnone
    rw [hs] at hnone
    exact hnone
  subst ho
  have hpm : processModule env cur targetDir bundled m
      = (none, warningEffects w ++ [.warnNoCompatible m.name]) := by
    rw [processModule_eq_of_contains env cur targetDir bundled m hb, hs]
  refine ⟨?_, ?_, ?_, runModules_fst_length_le env cur targetDir bundled⟩
  · simp [runModules, hpm]
  · simp [runModules, hpm, hs]
  · intro e he
    rcases List.mem_append.1 he with h1 | h1
    · obtain ⟨wr, hwr, rfl⟩ := List.mem_map.1 h1
      cases wr
      rfl
    · rw [List.mem_singleton.1 h1]
      rfl

/-- Claim C8, witness: a bundled module whose release list is empty is
skipped with only the no-compatible-release warning; the run produces no
entry for it. -/
theorem C8_no_compatible_skip_witness :
    (runModules ⟨fun _ => [], none, fun _ => false⟩ ⟨⟨1, 0, 0⟩, ⟨1, 0, 0⟩⟩
        "T" ["m1"] [⟨"m1", .plugin, "u", none⟩]).1 = [] ∧
    (runModules ⟨fun _ => [], none, fun _ => false⟩ ⟨⟨1, 0, 0⟩, ⟨1, 0, 0⟩⟩
        "T" ["m1"] [⟨"m1", .plugin, "u", none⟩]).2
      = [.warnNoCompatible "m1"] := by
  have h := C8_no_compatible_skip ⟨fun _ => [], none, fun _ => false⟩
    ⟨⟨1, 0, 0⟩, ⟨1, 0, 0⟩⟩ "T" ["m1"] ⟨"m1", .plugin, "u", none⟩ []
    (by decide) rfl
  exact ⟨h.1, by rw [h.2.1]; rfl⟩

/-- Claim C10: a name in the effective bundled set with no descriptor in the
index is never considered — the run yields no resolved entry named after it
and no effect (warning, download or extraction) belonging to it. -/
theorem C10_absent_from_index (env : DownloadEnv) (cur : CurrentApiVersions)
    (targetDir : String) (bundled : List String)
    (index : List ModuleDescriptor) (n : String)
    (h : n ∉ index.map ModuleDescriptor.name) :
    (∀ e ∈ (runModules env cur targetDir bundled index).1, e.name ≠ n) ∧
    (∀ fx ∈ (runModules env cur targetDir bundled index).2,
      fx.moduleName ≠ n) := by
  induction index with
  | nil => simp [runModules]
  | cons m rest ih =>
    have hm : m.name ≠ n := by
      intro hcontra
      exact h (by simp [hcontra])
    have hrest : n ∉ rest.map ModuleDescriptor.name := by
      intro hcontra
      exact h (by simp; right; simpa using hcontra)
    obtain ⟨ih1, ih2⟩ := ih hrest
    constructor
    · intro e he
      rcases List.mem_append.1 he with h1 | h1
      · have hsome : (processModule env cur targetDir bundled m).1 = some e := by
          rcases ho : (processModule env cur targetDir bundled m).1 with _ | x
          · rw [ho] at h1
            cases h1
          · rw [ho] at h1
            have hex : e = x := by simpa using h1
            rw [hex]
        rw [processModule_fst_name env cur targetDir bundled m e hsome]
        exact hm
      · exact ih1 e h1
    · intro fx hfx
      rcases List.mem_append.1 hfx with h1 | h1
      · rw [processModule_snd_name env cur targetDir bundled m fx h1]
        exact hm
      · exact ih2 fx h1

/-- Claim C10, witness: with `"m2"` bundled but absent from the index, the
run's entries and effects never mention `"m2"`. -/
theorem C10_absent_from_index_witness :
    (∀ e ∈ (runModules ⟨fun _ => [], none, fun _ => false⟩
        ⟨⟨1, 0, 0⟩, ⟨1, 0, 0⟩⟩ "T" ["m1", "m2"]
        [⟨"m1", .plugin, "u", none⟩]).1, e.name ≠ "m2") ∧
    (∀ fx ∈ (runModules ⟨fun _ => [], none, fun _ => false⟩
        ⟨⟨1, 0, 0⟩, ⟨1, 0, 0⟩⟩ "T" ["m1", "m2"]
        [⟨"m1", .plugin, "u", none⟩]).2, fx.moduleName ≠ "m2") :=
  C10_absent_from_index ⟨fun _ => [], none, fun _ => false⟩
    ⟨⟨1, 0, 0⟩, ⟨1, 0, 0⟩⟩ "T" ["m1", "m2"]
    [⟨"m1", .plugin, "u", none⟩] "m2" (by decide)

/-- Claim C9: every component of a successfully parsed version comes from an
actual `#define <prefix>_VERSION_{MAJOR,MINOR,PATCH}` line of the file (so a
missing component is never defaulted); whenever any of the three component
lines is absent the parser fails fatally; and when all three components are
present (each line classified as a component line carrying a parseable last
field) the parser succeeds. -/
theorem C9_parse_version (lines : List String) (p : String) :
    (∀ v, parse_version lines p = .ok v →
      (∃ l ∈ lines, startsWithStr l (defineLineMarker p "MAJOR") = true ∧
        parseIntToken (lastField l) = some v.major) ∧
      (∃ l ∈ lines, startsWithStr l (defineLineMarker p "MINOR") = true ∧
        parseIntToken (lastField l) = some v.minor) ∧
      (∃ l ∈ lines, startsWithStr l (defineLineMarker p "PATCH") = true ∧
        parseIntToken (lastField l) = some v.patch)) ∧
    (((¬ ∃ l ∈ lines, startsWithStr l (defineLineMarker p "MAJOR") = true) ∨
      (¬ ∃ l ∈ lines, startsWithStr l (defineLineMarker p "MINOR") = true) ∨
      (¬ ∃ l ∈ lines, startsWithStr l (defineLineMarker p "PATCH") = true)) →
      ∃ e, parse_version lines p = .error e) ∧
    ((∃ l ∈ lines, classifyLine p l = .major) →
     (∃ l ∈ lines, classifyLine p l = .minor) →
     (∃ l ∈ lines, classifyLine p l = .patch) →
     (∀ l ∈ lines, classifyLine p l ≠ .other →
       (parseIntToken (lastField l)).isSome = true) →
      ∃ v, parse_version lines p = .ok v) := by
  have hsound : ∀ v, parse_version lines p = .ok v →
      (∃ l ∈ lines, startsWithStr l (defineLineMarker p "MAJOR") = true ∧
        parseIntToken (lastField l) = some v.major) ∧
      (∃ l ∈ lines, startsWithStr l (defineLineMarker p "MINOR") = true ∧
        parseIntToken (lastField l) = some v.minor) ∧
      (∃ l ∈ lines, startsWithStr l (defineLineMarker p "PATCH") = true ∧
        parseIntToken (lastField l) = some v.patch) := by
    intro v h
    obtain ⟨h1, h2, h3⟩ := parseVersionLoop_ok_sources p lines none none none v h
    refine ⟨?_, ?_, ?_⟩
    · rcases h1 with h1 | ⟨l, hl, hcl, hpl⟩
      · cases h1
      · exact ⟨l, hl, classifyLine_major_startsWith hcl, hpl⟩
    · rcases h2 with h2 | ⟨l, hl, hcl, hpl⟩
      · cases h2
      · exact ⟨l, hl, classifyLine_minor_startsWith hcl, hpl⟩
    · rcases h3 with h3 | ⟨l, hl, hcl, hpl⟩
      · cases h3
      · exact ⟨l, hl, classifyLine_patch_startsWith hcl, hpl⟩
  refine ⟨hsound, ?_, ?_⟩
  · intro habs
    rcases hres : parse_version lines p with e | v
    · exact ⟨e, rfl⟩
    · exfalso
      obtain ⟨hma, hmi, hpa⟩ := hsound v hres
      rcases habs with hab | hab | hab
      · obtain ⟨l, hl, hs, _⟩ := hma
        exact hab ⟨l, hl, hs⟩
      · obtain ⟨l, hl, hs, _⟩ := hmi
        exact hab ⟨l, hl, hs⟩
      · obtain ⟨l, hl, hs, _⟩ := hpa
        exact hab ⟨l, hl, hs⟩
  · intro hma hmi hpa hparse
    exact parseVersionLoop_ok_of_present p lines none none none
      (Or.inr hma) (Or.inr hmi) (Or.inr hpa) hparse

/-- Claim C9, witness: a file declaring only the MAJOR component makes the
parser fail. -/
theorem C9_parse_version_witness :
    ∃ e, parse_version ["#define NOS_VERSION_MAJOR 1"] "NOS" = .error e :=
  (C9_parse_version ["#define NOS_VERSION_MAJOR 1"] "NOS").2.1
    (Or.inr (Or.inl (by decide)))

end Dist


